import Mathlib

/-!
Shallow embedding of the shift-optimisation model in
`src/optimisation/main.py` (`optimize_shifts`).

The Python program builds a constraint model over a `drivers × slots`
matrix of 0/1 variables (`shifts`, line 47-53), posts coverage,
duration and windowed-contiguity constraints (lines 60-73), defines the
objective as the sum of all entries (line 79), and searches with
`CHOOSE_FIRST_UNBOUND` / `ASSIGN_MIN_VALUE` (lines 87-89), reporting the
solution held by a `FirstSolutionCollector` after a `Solve` call that
does not include the objective monitor (lines 98-107).

An assignment is a list of rows (one per driver), each row a list of
0/1 entries (one per slot).  Demands are integers, as in the JSON input.
-/

/-- Minimum number of hours per shift (`min_h`, main.py line 41). -/
def min_h : Nat := 4

/-- Maximum number of hours per shift (`max_h`, main.py line 42). -/
def max_h : Nat := 10

/-- Sum of column `i` of the assignment matrix: the number of drivers
working in slot `i` (the inner `solver.Sum` of main.py line 61). -/
def colSum (A : List (List Nat)) (i : Nat) : Nat :=
  (A.map fun r => r.getD i 0).sum

/-- Coverage constraints (main.py lines 60-61): for every slot `i`,
the number of working drivers is at least `demand[i]`. -/
def coverageOK (demand : List Int) (A : List (List Nat)) : Bool :=
  (List.range demand.length).all fun i =>
    decide (demand.getD i 0 ≤ (colSum A i : Int))

/-- Duration constraints (main.py lines 64-66): every driver's row sum
lies between `min_h` and `max_h`. -/
def durationOK (A : List (List Nat)) : Bool :=
  A.all fun r => decide (min_h ≤ r.sum) && decide (r.sum ≤ max_h)

/-- Windowed contiguity constraints (main.py lines 69-73): for every
driver and every 3-slot window, one of the two adjacent equalities
holds, and for every 5-slot strided window, one of the two stride-2
equalities holds. -/
def windowsOK (slots : Nat) (A : List (List Nat)) : Bool :=
  A.all fun r =>
    ((List.range (slots - 2)).all fun i =>
      (r.getD i 0 == r.getD (i+1) 0) || (r.getD (i+1) 0 == r.getD (i+2) 0)) &&
    ((List.range (slots - 4)).all fun i =>
      (r.getD i 0 == r.getD (i+2) 0) || (r.getD (i+2) 0 == r.getD (i+4) 0))

/-- A complete assignment is feasible when all three posted constraint
families hold (main.py lines 60-73). -/
def feasible (demand : List Int) (A : List (List Nat)) : Bool :=
  coverageOK demand A && durationOK A && windowsOK demand.length A

/-- Objective value (`obj_var`, main.py line 79): the sum of all
entries of the flattened matrix. -/
def objectiveValue (A : List (List Nat)) : Nat :=
  A.flatten.sum

/-- Modelled from the spec: the library search engine is not part of the
repository; spec §4.3 describes it as a depth-first search that binds the
variables in row-major order, trying value `0` before value `1`
(`CHOOSE_FIRST_UNBOUND` / `ASSIGN_MIN_VALUE`, main.py lines 87-89).
`binRows n` is the list of all 0/1 rows of length `n` in exactly that
visit order (value 0 first, earlier slots more significant). -/
def binRows : Nat → List (List Nat)
  | 0 => [[]]
  | n + 1 =>
      ((binRows n).map fun r => 0 :: r) ++ ((binRows n).map fun r => 1 :: r)

/-- Modelled from the spec: all complete assignments (`drivers` rows of
`slots` 0/1 entries) in the depth-first visit order of spec §4.3, with
driver 0's row most significant (the row-major flattening `s_flat`,
main.py line 53). -/
def allAssignments : Nat → Nat → List (List (List Nat))
  | 0, _ => [[]]
  | d + 1, slots =>
      (binRows slots).flatMap fun r => (allAssignments d slots).map fun A => r :: A

/-- Modelled from the spec: the first feasible complete assignment
reached by the depth-first search, i.e. the solution stored by the
`FirstSolutionCollector` (main.py line 98) during the result-producing
`Solve` call (main.py line 104), which runs without the objective
monitor. -/
def firstSolution (demand : List Int) (drivers : Nat) :
    Option (List (List Nat)) :=
  (allAssignments drivers demand.length).find? (feasible demand)

/-- Result of a run: either a solved assignment with its collected
objective value (main.py lines 104-130) or the no-solution branch
(main.py lines 132-134).  The source performs no input validation, so
there is no error case. -/
inductive OptResult where
  | solved (assignment : List (List Nat)) (objective : Nat)
  | noSolution
deriving DecidableEq

/-- The optimisation run as observed by the caller: the collector's
stored assignment and its objective value (`collector.Value`,
`collector.ObjectiveValue(0)`, main.py lines 106-116), or no solution. -/
def optimize (demand : List Int) (drivers : Nat) : OptResult :=
  match firstSolution demand drivers with
  | some A => .solved A (objectiveValue A)
  | none => .noSolution

/-- The collector's reported objective value, when a solution exists. -/
def reportedObjective (demand : List Int) (drivers : Nat) : Option Nat :=
  (firstSolution demand drivers).map objectiveValue

/-- Solutions stored by the `FirstSolutionCollector` (main.py line 98):
at most the first feasible assignment found. -/
def storedSolutions (demand : List Int) (drivers : Nat) :
    List (List (List Nat)) :=
  match firstSolution demand drivers with
  | some A => [A]
  | none => []

/-- `collector.SolutionCount()` (main.py line 107): the number of
stored solutions. -/
def solutionCount (demand : List Int) (drivers : Nat) : Nat :=
  (storedSolutions demand drivers).length

/-- Modelled from the spec: all feasible complete assignments of the
model, listed in the depth-first visit order.  This is the solution set
the search ranges over; the branch-and-bound run itself reaches only the
strictly-improving subsequence of this list (see `visitedSolutions`). -/
def feasibleAssignments (demand : List Int) (drivers : Nat) :
    List (List (List Nat)) :=
  (allAssignments drivers demand.length).filter (feasible demand)

/-- The minimum objective value over all feasible complete assignments,
the value the spec says the collector retains (spec §3, ObjectiveValue). -/
def minObjective (demand : List Int) (drivers : Nat) : Option Nat :=
  ((feasibleAssignments demand drivers).map objectiveValue).min?

/-- Keeps, from a list of assignments, those whose objective strictly
beats the best value seen so far (the accumulator): the acceptance rule
of the objective minimizer (spec §4.4, `consider` accepts strictly
better only; `Minimize(obj_var, 1)`, main.py line 80, posts
`objective ≤ best - 1` after each solution, pruning every later
non-improving completion). -/
def improvingScan :
    List (List (List Nat)) → Option Nat → List (List (List Nat))
  | [], _ => []
  | A :: rest, none => A :: improvingScan rest (some (objectiveValue A))
  | A :: rest, some b =>
      if objectiveValue A < b then
        A :: improvingScan rest (some (objectiveValue A))
      else improvingScan rest (some b)

/-- Modelled from the spec: the distinct feasible complete assignments
actually visited during the run.  The minimizing solve (main.py
line 102) is a branch-and-bound search (spec §4.3-4.4): after each
solution the objective bound excludes every non-improving assignment, so
the complete assignments it reaches are exactly the strictly-improving
subsequence of the feasible assignments in depth-first visit order.  The
result-producing solve (main.py line 104) stops at its first solution,
which is the first element of this subsequence again, so it visits
nothing new. -/
def visitedSolutions (demand : List Int) (drivers : Nat) :
    List (List (List Nat)) :=
  improvingScan (feasibleAssignments demand drivers) none

/-- Strict lexicographic order on flattened assignments, value `0`
before value `1`, earlier variables more significant. -/
def lexLt : List Nat → List Nat → Bool
  | _, [] => false
  | [], _ :: _ => true
  | a :: x, b :: y => a < b || (a == b && lexLt x y)

/-- A row whose working slots form a single contiguous run: after the
leading zeros and the block of ones, only zeros remain (spec §3
invariant wording). -/
def isContiguousRun (r : List Nat) : Bool :=
  ((r.dropWhile fun x => x == 0).dropWhile fun x => x == 1).all
    fun x => x == 0

/-- Running the optimisation twice on the same inputs (spec §8,
idempotence): the pair of reported objective values. -/
def runTwice (demand : List Int) (drivers : Nat) : Option Nat × Option Nat :=
  (reportedObjective demand drivers, reportedObjective demand drivers)

set_option maxRecDepth 10000

/-! ### Shape of the enumerated rows and assignments -/

theorem length_of_mem_binRows : ∀ {n : Nat} {r : List Nat},
    r ∈ binRows n → r.length = n := by
  intro n
  induction n with
  | zero => intro r hr; simp [binRows] at hr; simp [hr]
  | succ n ih =>
    intro r hr
    rw [binRows, List.mem_append] at hr
    rcases hr with hr | hr <;>
      · rw [List.mem_map] at hr
        obtain ⟨s, hs, rfl⟩ := hr
        simp [ih hs]

theorem entries_le_one_of_mem_binRows : ∀ {n : Nat} {r : List Nat},
    r ∈ binRows n → ∀ x ∈ r, x ≤ 1 := by
  intro n
  induction n with
  | zero => intro r hr; simp [binRows] at hr; simp [hr]
  | succ n ih =>
    intro r hr
    rw [binRows, List.mem_append] at hr
    rcases hr with hr | hr <;>
      · rw [List.mem_map] at hr
        obtain ⟨s, hs, rfl⟩ := hr
        intro x hx
        rcases List.mem_cons.mp hx with rfl | hx
        · omega
        · exact ih hs x hx

theorem getD_le_one {r : List Nat} (hr : ∀ x ∈ r, x ≤ 1) (i : Nat) :
    r.getD i 0 ≤ 1 := by
  induction r generalizing i with
  | nil => simp [List.getD_nil]
  | cons a t ih =>
    cases i with
    | zero => exact hr a (List.mem_cons_self a t)
    | succ i =>
      rw [List.getD_cons_succ]
      exact ih (fun x hx => hr x (List.mem_cons_of_mem a hx)) i

theorem mem_allAssignments_shape : ∀ {d s : Nat} {A : List (List Nat)},
    A ∈ allAssignments d s → A.length = d ∧ ∀ r ∈ A, r ∈ binRows s := by
  intro d
  induction d with
  | zero =>
    intro s A hA
    simp [allAssignments] at hA
    simp [hA]
  | succ d ih =>
    intro s A hA
    rw [allAssignments, List.mem_flatMap] at hA
    obtain ⟨r, hr, hA⟩ := hA
    rw [List.mem_map] at hA
    obtain ⟨B, hB, rfl⟩ := hA
    obtain ⟨hlen, hrows⟩ := ih hB
    refine ⟨by simp [hlen], ?_⟩
    intro q hq
    rcases List.mem_cons.mp hq with rfl | hq
    · exact hr
    · exact hrows q hq

/-! ### Sums: row sums, column sums and the objective -/

theorem list_sum_eq_sum_range_getD {M : Type} [AddCommMonoid M] :
    ∀ (r : List M) (n : Nat), r.length ≤ n →
      r.sum = ∑ i in Finset.range n, r.getD i 0 := by
  intro r
  induction r with
  | nil => intro n _; simp [List.getD_nil]
  | cons a t ih =>
    intro n hn
    cases n with
    | zero => simp at hn
    | succ n =>
      rw [Finset.sum_range_succ']
      simp only [List.getD_cons_succ, List.getD_cons_zero, List.sum_cons]
      rw [← ih n (by simpa using hn)]
      exact (add_comm _ _)

theorem objectiveValue_eq_sum_rowSums (A : List (List Nat)) :
    objectiveValue A = (A.map List.sum).sum := by
  simp [objectiveValue, List.sum_flatten]

theorem colSum_cons (r : List Nat) (A : List (List Nat)) (i : Nat) :
    colSum (r :: A) i = r.getD i 0 + colSum A i := by
  simp [colSum]

theorem objectiveValue_eq_sum_colSums :
    ∀ (A : List (List Nat)) (n : Nat), (∀ r ∈ A, r.length ≤ n) →
      objectiveValue A = ∑ i in Finset.range n, colSum A i := by
  intro A
  induction A with
  | nil => intro n _; simp [objectiveValue, colSum]
  | cons r B ih =>
    intro n hn
    rw [objectiveValue_eq_sum_rowSums] at ih ⊢
    simp only [List.map_cons, List.sum_cons]
    have hB : (B.map List.sum).sum = ∑ i in Finset.range n, colSum B i :=
      ih n (fun q hq => hn q (List.mem_cons_of_mem r hq))
    have hr : r.sum = ∑ i in Finset.range n, r.getD i 0 :=
      list_sum_eq_sum_range_getD r n (hn r (List.mem_cons_self r B))
    rw [hB, hr, ← Finset.sum_add_distrib]
    exact Finset.sum_congr rfl fun i _ => (colSum_cons r B i).symm

/-! ### Unfolding the boolean constraint checks into propositions -/

theorem coverageOK_iff {demand : List Int} {A : List (List Nat)} :
    coverageOK demand A = true ↔
      ∀ i < demand.length, demand.getD i 0 ≤ (colSum A i : Int) := by
  simp [coverageOK, List.all_eq_true, List.mem_range]

theorem durationOK_iff {A : List (List Nat)} :
    durationOK A = true ↔ ∀ r ∈ A, min_h ≤ r.sum ∧ r.sum ≤ max_h := by
  simp [durationOK, List.all_eq_true]

theorem windowsOK_iff {slots : Nat} {A : List (List Nat)} :
    windowsOK slots A = true ↔
      ∀ r ∈ A,
        (∀ i < slots - 2,
          r.getD i 0 = r.getD (i+1) 0 ∨ r.getD (i+1) 0 = r.getD (i+2) 0) ∧
        (∀ i < slots - 4,
          r.getD i 0 = r.getD (i+2) 0 ∨ r.getD (i+2) 0 = r.getD (i+4) 0) := by
  simp [windowsOK, List.all_eq_true, List.mem_range]

theorem feasible_iff {demand : List Int} {A : List (List Nat)} :
    feasible demand A = true ↔
      coverageOK demand A = true ∧ durationOK A = true ∧
        windowsOK demand.length A = true := by
  simp [feasible, Bool.and_eq_true, and_assoc]

/-! ### Lexicographic order of the depth-first visit sequence -/

theorem lexLt_cons_same (a : Nat) (x y : List Nat) :
    lexLt (a :: x) (a :: y) = lexLt x y := by
  simp [lexLt]

theorem lexLt_cons_of_lt {a b : Nat} (h : a < b) (x y : List Nat) :
    lexLt (a :: x) (b :: y) = true := by
  simp [lexLt, h]

theorem lexLt_append_same : ∀ (r x y : List Nat),
    lexLt (r ++ x) (r ++ y) = lexLt x y := by
  intro r x y
  induction r with
  | nil => rfl
  | cons a t ih => rw [List.cons_append, List.cons_append, lexLt_cons_same, ih]

theorem lexLt_append_of_lexLt : ∀ {r s : List Nat}, r.length = s.length →
    lexLt r s = true → ∀ (x y : List Nat), lexLt (r ++ x) (s ++ y) = true := by
  intro r
  induction r with
  | nil =>
    intro s hlen h
    cases s with
    | nil => simp [lexLt] at h
    | cons b t => simp at hlen
  | cons a r' ih =>
    intro s hlen h
    cases s with
    | nil => simp at hlen
    | cons b s' =>
      intro x y
      simp only [lexLt, Bool.or_eq_true, Bool.and_eq_true, beq_iff_eq,
        decide_eq_true_eq] at h
      rcases h with h | ⟨rfl, h⟩
      · exact lexLt_cons_of_lt h _ _
      · rw [List.cons_append, List.cons_append, lexLt_cons_same]
        exact ih (by simpa using hlen) h x y

theorem pairwise_binRows (n : Nat) :
    (binRows n).Pairwise fun r s => lexLt r s = true := by
  induction n with
  | zero => simp [binRows]
  | succ n ih =>
    rw [binRows, List.pairwise_append]
    refine ⟨?_, ?_, ?_⟩
    · rw [List.pairwise_map]
      exact ih.imp fun h => by rw [lexLt_cons_same]; exact h
    · rw [List.pairwise_map]
      exact ih.imp fun h => by rw [lexLt_cons_same]; exact h
    · intro a ha b hb
      rw [List.mem_map] at ha hb
      obtain ⟨r, _, rfl⟩ := ha
      obtain ⟨s, _, rfl⟩ := hb
      exact lexLt_cons_of_lt (by omega) r s

theorem pairwise_allAssignments (d s : Nat) :
    (allAssignments d s).Pairwise
      fun X Y => lexLt X.flatten Y.flatten = true := by
  induction d with
  | zero => simp [allAssignments]
  | succ d ih =>
    rw [allAssignments, List.flatMap_def, List.pairwise_flatten]
    constructor
    · intro l hl
      rw [List.mem_map] at hl
      obtain ⟨r, _, rfl⟩ := hl
      rw [List.pairwise_map]
      refine ih.imp fun {X Y} h => ?_
      rw [List.flatten_cons, List.flatten_cons, lexLt_append_same]
      exact h
    · rw [List.pairwise_map]
      refine (pairwise_binRows s).imp_of_mem fun {r q} hr hq h => ?_
      intro a ha b hb
      rw [List.mem_map] at ha hb
      obtain ⟨X, hX, rfl⟩ := ha
      obtain ⟨Y, hY, rfl⟩ := hb
      rw [List.flatten_cons, List.flatten_cons]
      have hlen : r.length = q.length := by
        rw [length_of_mem_binRows hr, length_of_mem_binRows hq]
      exact lexLt_append_of_lexLt hlen h _ _

/-- If a list is sorted by `R` and `find?` returns `a`, then `a` is, up
to equality, `R`-below every element of the list satisfying the
predicate. -/
theorem find?_min_of_pairwise {α : Type} {R : α → α → Prop} {p : α → Bool}
    {a : α} :
    ∀ {l : List α}, l.Pairwise R → l.find? p = some a →
      ∀ b ∈ l, p b = true → a = b ∨ R a b := by
  intro l
  induction l with
  | nil => intro _ h; simp at h
  | cons x xs ih =>
    intro hp hf b hb hpb
    rw [List.pairwise_cons] at hp
    by_cases hx : p x = true
    · rw [List.find?_cons_of_pos _ hx] at hf
      injection hf with hf
      subst hf
      rcases List.mem_cons.mp hb with rfl | hb'
      · exact Or.inl rfl
      · exact Or.inr (hp.1 b hb')
    · rw [List.find?_cons_of_neg _ hx] at hf
      rcases List.mem_cons.mp hb with rfl | hb'
      · exact absurd hpb hx
      · exact ih hp.2 hf b hb' hpb

/-! ### Bounds linking coverage, demand and the objective -/

theorem colSum_le_length {A : List (List Nat)}
    (h : ∀ r ∈ A, ∀ x ∈ r, x ≤ 1) (i : Nat) : colSum A i ≤ A.length := by
  induction A with
  | nil => simp [colSum]
  | cons r B ih =>
    rw [colSum_cons]
    have h1 : r.getD i 0 ≤ 1 := getD_le_one (h r (List.mem_cons_self r B)) i
    have h2 : colSum B i ≤ B.length :=
      ih fun q hq => h q (List.mem_cons_of_mem r hq)
    simp only [List.length_cons]
    omega

theorem sum_demand_le_objective {demand : List Int} {A : List (List Nat)}
    (hlen : ∀ r ∈ A, r.length ≤ demand.length)
    (hcov : coverageOK demand A = true) :
    demand.sum ≤ (objectiveValue A : Int) := by
  have hd : demand.sum = ∑ i in Finset.range demand.length, demand.getD i 0 :=
    list_sum_eq_sum_range_getD demand demand.length (le_refl _)
  have hobj : objectiveValue A =
      ∑ i in Finset.range demand.length, colSum A i :=
    objectiveValue_eq_sum_colSums A demand.length hlen
  rw [hd, hobj]
  push_cast
  refine Finset.sum_le_sum fun i hi => ?_
  exact coverageOK_iff.mp hcov i (Finset.mem_range.mp hi)

/-! ### Claim theorems -/

/-- Claim C1: for every valid input (positive driver count, non-empty
demand), every assignment returned in a `Solved` result satisfies all
three posted constraint families: per-slot coverage, per-driver duration
bounds `min_h = 4` and `max_h = 10`, and both windowed disjunctive
equality families. -/
theorem C1_solved_satisfies_all_constraints
    (demand : List Int) (drivers : Nat) (A : List (List Nat))
    (_hdrivers : 0 < drivers) (_hne : demand ≠ [])
    (_hnonneg : ∀ x ∈ demand, 0 ≤ x)
    (h : firstSolution demand drivers = some A) :
    (∀ i < demand.length, demand.getD i 0 ≤ (colSum A i : Int)) ∧
    (∀ r ∈ A, min_h ≤ r.sum ∧ r.sum ≤ max_h) ∧
    (∀ r ∈ A,
      (∀ i < demand.length - 2,
        r.getD i 0 = r.getD (i+1) 0 ∨ r.getD (i+1) 0 = r.getD (i+2) 0) ∧
      (∀ i < demand.length - 4,
        r.getD i 0 = r.getD (i+2) 0 ∨ r.getD (i+2) 0 = r.getD (i+4) 0)) := by
  have hfeas : feasible demand A = true := List.find?_some h
  obtain ⟨hc, hdur, hw⟩ := feasible_iff.mp hfeas
  exact ⟨coverageOK_iff.mp hc, durationOK_iff.mp hdur, windowsOK_iff.mp hw⟩

/-- Witness for C1 at the concrete input `demand = [0,0,0,0]`,
`drivers = 1`, whose returned assignment is `[[1,1,1,1]]`. -/
theorem C1_witness :
    (0 < 1 ∧ ([0, 0, 0, 0] : List Int) ≠ [] ∧
      (∀ x ∈ ([0, 0, 0, 0] : List Int), 0 ≤ x)) ∧
    ((∀ i < ([0, 0, 0, 0] : List Int).length,
        ([0, 0, 0, 0] : List Int).getD i 0 ≤ (colSum [[1, 1, 1, 1]] i : Int)) ∧
      (∀ r ∈ [[1, 1, 1, 1]], min_h ≤ r.sum ∧ r.sum ≤ max_h) ∧
      (∀ r ∈ ([[1, 1, 1, 1]] : List (List Nat)),
        (∀ i < ([0, 0, 0, 0] : List Int).length - 2,
          r.getD i 0 = r.getD (i+1) 0 ∨ r.getD (i+1) 0 = r.getD (i+2) 0) ∧
        (∀ i < ([0, 0, 0, 0] : List Int).length - 4,
          r.getD i 0 = r.getD (i+2) 0 ∨ r.getD (i+2) 0 = r.getD (i+4) 0))) :=
  ⟨⟨by decide, by decide, by decide⟩,
    C1_solved_satisfies_all_constraints [0, 0, 0, 0] 1 [[1, 1, 1, 1]]
      (by decide) (by decide) (by decide) rfl⟩

/-- Claim C4: a returned `Solved` assignment is the first feasible
complete assignment in the depth-first `CHOOSE_FIRST_UNBOUND` /
`ASSIGN_MIN_VALUE` visit order, i.e. the lexicographically smallest
feasible assignment under row-major variable order with value 0 before
value 1; the search producing it involves no objective reasoning
(`firstSolution` does not mention `objectiveValue`). -/
theorem C4_solved_is_lex_least_feasible
    (demand : List Int) (drivers : Nat) (A : List (List Nat))
    (h : firstSolution demand drivers = some A) :
    feasible demand A = true ∧
    ∀ B ∈ allAssignments drivers demand.length, feasible demand B = true →
      A = B ∨ lexLt A.flatten B.flatten = true :=
  ⟨List.find?_some h,
    find?_min_of_pairwise (pairwise_allAssignments drivers demand.length) h⟩

/-- Witness for C4 at `demand = [1,1,1,1]`, `drivers = 1`: the returned
assignment `[[1,1,1,1]]` is feasible and lexicographically least. -/
theorem C4_witness :
    feasible [1, 1, 1, 1] [[1, 1, 1, 1]] = true ∧
    ∀ B ∈ allAssignments 1 ([1, 1, 1, 1] : List Int).length,
      feasible [1, 1, 1, 1] B = true →
        ([[1, 1, 1, 1]] : List (List Nat)) = B ∨
          lexLt ([[1, 1, 1, 1]] : List (List Nat)).flatten B.flatten = true :=
  C4_solved_is_lex_least_feasible [1, 1, 1, 1] 1 [[1, 1, 1, 1]] rfl

/-- Claim C5: whenever a `Solved` result is returned, the reported
objective value is the literal sum of the reported assignment matrix
(the sum over drivers of the row sums). -/
theorem C5_objective_is_matrix_sum
    (demand : List Int) (drivers : Nat) (A : List (List Nat)) (v : Nat)
    (h : optimize demand drivers = .solved A v) :
    v = (A.map List.sum).sum := by
  unfold optimize at h
  cases hfs : firstSolution demand drivers with
  | none => rw [hfs] at h; exact absurd h (by simp)
  | some B =>
    rw [hfs] at h
    injection h with h1 h2
    rw [← h2, ← h1]
    exact objectiveValue_eq_sum_rowSums B

/-- Witness for C5 at `demand = [0,0,0,0,0]`, `drivers = 1`. -/
theorem C5_witness :
    (4 : Nat) = (([[0, 1, 1, 1, 1]] : List (List Nat)).map List.sum).sum :=
  C5_objective_is_matrix_sum [0, 0, 0, 0, 0] 1 [[0, 1, 1, 1, 1]] 4 rfl

/-- Claim C2 (code bug): at `demand = [0,0,1,0,0,0,0,1]`, `drivers = 1`,
the value reported by the collector is `6` (the objective of the first
assignment found by the depth-first search, since the result-producing
`Solve` of main.py line 104 omits the objective monitor of line 80),
while the minimum objective over all feasible complete assignments is
`4`: the retained value is not the minimum the spec promises. -/
theorem C2_failing_input_evaluation :
    reportedObjective [0, 0, 1, 0, 0, 0, 0, 1] 1 = some 6 ∧
    minObjective [0, 0, 1, 0, 0, 0, 0, 1] 1 = some 4 ∧ (6 : Nat) ≠ 4 :=
  ⟨rfl, by decide, by decide⟩

/-- Claim C3, counterexample: at `demand = [1,0,0,0,0,0,0,1]`,
`drivers = 1`, the returned `Solved` assignment is
`[[1,0,0,0,0,1,1,1]]`, whose working slots `{0,5,6,7}` do not form a
single contiguous run: the windowed constraints admit gaps. -/
theorem C3_counterexample :
    optimize [1, 0, 0, 0, 0, 0, 0, 1] 1 =
      .solved [[1, 0, 0, 0, 0, 1, 1, 1]] 4 ∧
    isContiguousRun [1, 0, 0, 0, 0, 1, 1, 1] = false :=
  ⟨rfl, by decide⟩

/-- Claim C3 as amended: in every returned `Solved` assignment, every
driver's row satisfies the two windowed disjunctive-equality families
(the rule the source actually posts, main.py lines 69-73); these do not
force the working slots into a single contiguous run. -/
theorem C3_amended_rows_satisfy_windows
    (demand : List Int) (drivers : Nat) (A : List (List Nat))
    (h : firstSolution demand drivers = some A) :
    ∀ r ∈ A,
      (∀ i < demand.length - 2,
        r.getD i 0 = r.getD (i+1) 0 ∨ r.getD (i+1) 0 = r.getD (i+2) 0) ∧
      (∀ i < demand.length - 4,
        r.getD i 0 = r.getD (i+2) 0 ∨ r.getD (i+2) 0 = r.getD (i+4) 0) :=
  windowsOK_iff.mp (feasible_iff.mp (List.find?_some h)).2.2

/-- Witness for the amended C3 at the gap-exhibiting input, instantiated
at the single returned row `[1,0,0,0,0,1,1,1]`. -/
theorem C3_amended_witness :
    (∀ i < ([1, 0, 0, 0, 0, 0, 0, 1] : List Int).length - 2,
      ([1, 0, 0, 0, 0, 1, 1, 1] : List Nat).getD i 0 =
          ([1, 0, 0, 0, 0, 1, 1, 1] : List Nat).getD (i+1) 0 ∨
        ([1, 0, 0, 0, 0, 1, 1, 1] : List Nat).getD (i+1) 0 =
          ([1, 0, 0, 0, 0, 1, 1, 1] : List Nat).getD (i+2) 0) ∧
    (∀ i < ([1, 0, 0, 0, 0, 0, 0, 1] : List Int).length - 4,
      ([1, 0, 0, 0, 0, 1, 1, 1] : List Nat).getD i 0 =
          ([1, 0, 0, 0, 0, 1, 1, 1] : List Nat).getD (i+2) 0 ∨
        ([1, 0, 0, 0, 0, 1, 1, 1] : List Nat).getD (i+2) 0 =
          ([1, 0, 0, 0, 0, 1, 1, 1] : List Nat).getD (i+4) 0) :=
  C3_amended_rows_satisfy_windows [1, 0, 0, 0, 0, 0, 0, 1] 1
    [[1, 0, 0, 0, 0, 1, 1, 1]] rfl [1, 0, 0, 0, 0, 1, 1, 1] (by decide)

theorem visitedSolutions_eq_nil_iff (demand : List Int) (drivers : Nat) :
    visitedSolutions demand drivers = [] ↔
      feasibleAssignments demand drivers = [] := by
  unfold visitedSolutions
  cases feasibleAssignments demand drivers with
  | nil => simp [improvingScan]
  | cons A rest => simp [improvingScan]

/-- Claim C6, counterexample: at `demand = [0,0,1,0,0,0,0,1]`,
`drivers = 1`, the branch-and-bound run visits two distinct feasible
complete assignments (`[[0,0,1,1,1,1,1,1]]` with objective 6, then the
improving `[[1,1,1,0,0,0,0,1]]` with objective 4; every other feasible
assignment is excluded by the objective bound), yet the
`FirstSolutionCollector` reports a solution count of `1`, not `2`. -/
theorem C6_counterexample :
    solutionCount [0, 0, 1, 0, 0, 0, 0, 1] 1 = 1 ∧
    visitedSolutions [0, 0, 1, 0, 0, 0, 0, 1] 1 =
      [[[0, 0, 1, 1, 1, 1, 1, 1]], [[1, 1, 1, 0, 0, 0, 0, 1]]] ∧
    solutionCount [0, 0, 1, 0, 0, 0, 0, 1] 1 ≠
      (visitedSolutions [0, 0, 1, 0, 0, 0, 0, 1] 1).length :=
  ⟨by decide, by decide, by decide⟩

/-- Claim C6 as amended: the reported solution count is the number of
solutions stored by the `FirstSolutionCollector`, which is `1` whenever
the run visits at least one feasible complete assignment and `0`
otherwise — not the number of distinct feasible complete assignments
visited during the run. -/
theorem C6_amended_count_is_capped_at_one
    (demand : List Int) (drivers : Nat) :
    solutionCount demand drivers =
      min 1 (visitedSolutions demand drivers).length := by
  unfold solutionCount storedSolutions
  cases hfs : firstSolution demand drivers with
  | none =>
    unfold firstSolution at hfs
    have hnil : feasibleAssignments demand drivers = [] := by
      unfold feasibleAssignments
      rw [List.filter_eq_nil_iff]
      intro a ha
      simpa using List.find?_eq_none.mp hfs a ha
    rw [(visitedSolutions_eq_nil_iff demand drivers).mpr hnil]
    simp
  | some A =>
    unfold firstSolution at hfs
    have hmem : A ∈ feasibleAssignments demand drivers := by
      unfold feasibleAssignments
      rw [List.mem_filter]
      exact ⟨List.mem_of_find?_eq_some hfs, List.find?_some hfs⟩
    have hpos : 1 ≤ (visitedSolutions demand drivers).length := by
      cases hV : visitedSolutions demand drivers with
      | nil =>
        rw [(visitedSolutions_eq_nil_iff demand drivers).mp hV] at hmem
        simp at hmem
      | cons x xs => simp
    simp [Nat.min_eq_left hpos]

/-- Claim C7, counterexample: the model-building step never fails with
an `InvalidInput` error.  With `drivers = 0` and positive demand the
search simply finds no solution; with `drivers = 0` and all-zero demand
it even returns an empty `Solved` result; negative demand values are
passed through and satisfied trivially. -/
theorem C7_counterexample :
    optimize [1, 1, 1, 1] 0 = OptResult.noSolution ∧
    optimize [0, 0, 0, 0] 0 = OptResult.solved [] 0 ∧
    optimize [-1, -2, -3, -4] 1 = OptResult.solved [[1, 1, 1, 1]] 4 :=
  ⟨rfl, rfl, rfl⟩

/-- Claim C7 as amended: the code performs no eager input validation;
every input reaches the solver, and whenever some demand value exceeds
the driver count the search determines infeasibility and the run
returns the no-solution result. -/
theorem C7_amended_excess_demand_is_infeasible
    (demand : List Int) (drivers : Nat)
    (h : ∃ i < demand.length, (drivers : Int) < demand.getD i 0) :
    optimize demand drivers = OptResult.noSolution := by
  obtain ⟨i, hi, hgt⟩ := h
  have hnone : firstSolution demand drivers = none := by
    unfold firstSolution
    rw [List.find?_eq_none]
    intro A hA hfeas
    have hcle := coverageOK_iff.mp (feasible_iff.mp hfeas).1 i hi
    have hshape := mem_allAssignments_shape hA
    have hbound : colSum A i ≤ drivers := by
      rw [← hshape.1]
      exact colSum_le_length
        (fun r hr => entries_le_one_of_mem_binRows (hshape.2 r hr)) i
    have hcast : (colSum A i : Int) ≤ (drivers : Int) := by exact_mod_cast hbound
    omega
  unfold optimize
  rw [hnone]

/-- Witness for the amended C7: `demand = [5]`, `drivers = 2` is passed
through and the solver reports no solution. -/
theorem C7_amended_witness :
    (∃ i < ([5] : List Int).length, ((2 : Nat) : Int) < ([5] : List Int).getD i 0) ∧
    optimize [5] 2 = OptResult.noSolution :=
  ⟨⟨0, by decide, by decide⟩,
    C7_amended_excess_demand_is_infeasible [5] 2 ⟨0, by decide, by decide⟩⟩

/-- Claim C8: for `demand = [1,1,1,1,1,1,1,1]` and `drivers = 2` the
result is `Solved`; each of the two drivers works a single contiguous
block of between 4 and 8 slots, every slot is covered, the objective is
`8 ≤ 16`, it equals `sum(demand) = 8`, and no feasible complete
assignment has a smaller objective (the reported total is the smallest
total that is at least `sum(demand)`). -/
theorem C8_concrete_scenario :
    optimize [1, 1, 1, 1, 1, 1, 1, 1] 2 =
      .solved [[0, 0, 0, 0, 1, 1, 1, 1], [1, 1, 1, 1, 0, 0, 0, 0]] 8 ∧
    (∀ r ∈ ([[0, 0, 0, 0, 1, 1, 1, 1], [1, 1, 1, 1, 0, 0, 0, 0]] :
        List (List Nat)),
      isContiguousRun r = true ∧ 4 ≤ r.sum ∧ r.sum ≤ 8) ∧
    (∀ i < 8,
      (1 : Int) ≤
        colSum [[0, 0, 0, 0, 1, 1, 1, 1], [1, 1, 1, 1, 0, 0, 0, 0]] i) ∧
    ((8 : Nat) ≤ 16) ∧
    ((8 : Int) = ([1, 1, 1, 1, 1, 1, 1, 1] : List Int).sum) ∧
    (∀ B ∈ allAssignments 2 8,
      feasible [1, 1, 1, 1, 1, 1, 1, 1] B = true → 8 ≤ objectiveValue B) := by
  refine ⟨rfl, by decide, by decide, by decide, by decide, ?_⟩
  intro B hB hf
  have hshape := mem_allAssignments_shape hB
  have hlen : ∀ r ∈ B, r.length ≤ ([1, 1, 1, 1, 1, 1, 1, 1] : List Int).length := by
    intro r hr
    rw [length_of_mem_binRows (hshape.2 r hr)]
    decide
  have hle : ([1, 1, 1, 1, 1, 1, 1, 1] : List Int).sum ≤ (objectiveValue B : Int) :=
    sum_demand_le_objective hlen (feasible_iff.mp hf).1
  have h8 : (8 : Int) ≤ (objectiveValue B : Int) := by
    simpa using hle
  exact_mod_cast h8

/-- Claim C9: the optimisation is deterministic — running it twice on
identical inputs yields the same reported objective value (the model
captures an exhaustive, untimed run of the search; there is no other
source of variation). -/
theorem C9_two_runs_same_objective (demand : List Int) (drivers : Nat) :
    (runTwice demand drivers).1 = (runTwice demand drivers).2 :=
  rfl

/-- Claim C10: with at least one driver, every feasible complete
assignment — and hence every returned `Solved` assignment — has
objective value at least `4 * drivers`, because each driver's row sum is
forced to be at least `min_h = 4`; in particular a returned assignment
is never all-zero. -/
theorem C10_objective_at_least_four_per_driver
    (demand : List Int) (drivers : Nat) (hd : 1 ≤ drivers) :
    (∀ A ∈ allAssignments drivers demand.length,
        feasible demand A = true → 4 * drivers ≤ objectiveValue A) ∧
    (∀ A, firstSolution demand drivers = some A →
        4 * drivers ≤ objectiveValue A ∧ objectiveValue A ≠ 0) := by
  have main : ∀ A ∈ allAssignments drivers demand.length,
      feasible demand A = true → 4 * drivers ≤ objectiveValue A := by
    intro A hA hfeas
    have hdur := durationOK_iff.mp (feasible_iff.mp hfeas).2.1
    have hlen : A.length = drivers := (mem_allAssignments_shape hA).1
    rw [objectiveValue_eq_sum_rowSums]
    have hsum : (A.map List.sum).length • min_h ≤ (A.map List.sum).sum := by
      refine List.card_nsmul_le_sum _ _ ?_
      intro x hx
      rw [List.mem_map] at hx
      obtain ⟨r, hr, rfl⟩ := hx
      exact (hdur r hr).1
    rw [List.length_map, hlen, smul_eq_mul] at hsum
    calc 4 * drivers = drivers * min_h := by rw [min_h]; ring
    _ ≤ _ := hsum
  refine ⟨main, fun A hfs => ?_⟩
  have h1 := main A (List.mem_of_find?_eq_some hfs) (List.find?_some hfs)
  exact ⟨h1, by omega⟩

/-- Witness for C10 at `demand = [0,0,0,0,0,0]` (all-zero), `drivers = 1`:
even with zero demand the objective of any feasible or returned
assignment is at least `4`, and the returned assignment is not all-zero. -/
theorem C10_witness :
    1 ≤ 1 ∧
    ((∀ A ∈ allAssignments 1 ([0, 0, 0, 0, 0, 0] : List Int).length,
        feasible [0, 0, 0, 0, 0, 0] A = true → 4 * 1 ≤ objectiveValue A) ∧
      (∀ A, firstSolution [0, 0, 0, 0, 0, 0] 1 = some A →
        4 * 1 ≤ objectiveValue A ∧ objectiveValue A ≠ 0)) :=
  ⟨by decide,
    C10_objective_at_least_four_per_driver [0, 0, 0, 0, 0, 0] 1 (by decide)⟩
